import Mathlib

/-!
Verification development for the occi-server core (library catalog,
fingerprinting, cache store, dispatcher, job poller, batch coordinator).

Each definition is a shallow embedding of a function of the source tree
(`src/occilib/*.py`, `src/main.py`); the doc comment of every definition
names the Python function it embeds.  Machine-level details (MD5, base64,
UTF-8) are implemented bit-faithfully over `Nat`.
-/

namespace Occi

/-- A parameter value as it can appear in `CadScriptRequest.request.params`
(Python values: `None`, `bool`, `int`, `str`).  Floats are outside this
embedding. -/
inductive Value where
  | vNone : Value
  | vBool : Bool → Value
  | vInt  : Int → Value
  | vStr  : String → Value
deriving DecidableEq, Repr

/-- Python `str()` / f-string formatting of a `Value`, as used by
`CadScript.hash` (`CadScript.py` line 147: `f'{name}={param_value}&'`):
`None → "None"`, `True → "True"`, `False → "False"`, ints in decimal,
strings verbatim (no quotes). -/
def pyStr : Value → String
  | .vNone => "None"
  | .vBool true => "True"
  | .vBool false => "False"
  | .vInt n => toString n
  | .vStr s => s

/-- Whether a value is an integer (the case where Python `str()` and
canonical JSON agree). -/
def Value.isInt : Value → Bool
  | .vInt _ => true
  | _ => false

/-- Canonical JSON of a `Value`, following the spec's words for the
fingerprint (`name=<canonical-json-of-value>&`): `null`, `true`/`false`,
decimal ints, quoted strings. -/
def jsonStr : Value → String
  | .vNone => "null"
  | .vBool true => "true"
  | .vBool false => "false"
  | .vInt n => toString n
  | .vStr s => "\"" ++ s ++ "\""

/-! ### UTF-8, MD5 and URL-safe base64 over `Nat` bytes -/

/-- UTF-8 encoding of a single character (Python `str.encode()`), as a
list of bytes (each `< 256`). -/
def utf8Char (c : Char) : List Nat :=
  let n := c.toNat
  if n < 0x80 then [n]
  else if n < 0x800 then [0xC0 + n / 64, 0x80 + n % 64]
  else if n < 0x10000 then [0xE0 + n / 4096, 0x80 + (n / 64) % 64, 0x80 + n % 64]
  else [0xF0 + n / 262144, 0x80 + (n / 4096) % 64, 0x80 + (n / 64) % 64, 0x80 + n % 64]

/-- UTF-8 encoding of a string as a byte list. -/
def utf8 (s : String) : List Nat :=
  s.data.foldr (fun c acc => utf8Char c ++ acc) []

/-- Little-endian byte decomposition: `n` bytes of `x`. -/
def leBytes : Nat → Nat → List Nat
  | 0, _ => []
  | n + 1, x => (x % 256) :: leBytes n (x / 256)

/-- Left rotation of a 32-bit word. -/
def rotl32 (x s : Nat) : Nat :=
  ((x <<< s) ||| (x >>> (32 - s))) % 4294967296

/-- The 64 MD5 sine-derived constants (RFC 1321). -/
def md5K : List Nat :=
  [0xd76aa478, 0xe8c7b756, 0x242070db, 0xc1bdceee,
   0xf57c0faf, 0x4787c62a, 0xa8304613, 0xfd469501,
   0x698098d8, 0x8b44f7af, 0xffff5bb1, 0x895cd7be,
   0x6b901122, 0xfd987193, 0xa679438e, 0x49b40821,
   0xf61e2562, 0xc040b340, 0x265e5a51, 0xe9b6c7aa,
   0xd62f105d, 0x02441453, 0xd8a1e681, 0xe7d3fbc8,
   0x21e1cde6, 0xc33707d6, 0xf4d50d87, 0x455a14ed,
   0xa9e3e905, 0xfcefa3f8, 0x676f02d9, 0x8d2a4c8a,
   0xfffa3942, 0x8771f681, 0x6d9d6122, 0xfde5380c,
   0xa4beea44, 0x4bdecfa9, 0xf6bb4b60, 0xbebfbc70,
   0x289b7ec6, 0xeaa127fa, 0xd4ef3085, 0x04881d05,
   0xd9d4d039, 0xe6db99e5, 0x1fa27cf8, 0xc4ac5665,
   0xf4292244, 0x432aff97, 0xab9423a7, 0xfc93a039,
   0x655b59c3, 0x8f0ccc92, 0xffeff47d, 0x85845dd1,
   0x6fa87e4f, 0xfe2ce6e0, 0xa3014314, 0x4e0811a1,
   0xf7537e82, 0xbd3af235, 0x2ad7d2bb, 0xeb86d391]

/-- The 64 MD5 per-round left-rotation amounts (RFC 1321). -/
def md5S : List Nat :=
  [7, 12, 17, 22, 7, 12, 17, 22, 7, 12, 17, 22, 7, 12, 17, 22,
   5,  9, 14, 20, 5,  9, 14, 20, 5,  9, 14, 20, 5,  9, 14, 20,
   4, 11, 16, 23, 4, 11, 16, 23, 4, 11, 16, 23, 4, 11, 16, 23,
   6, 10, 15, 21, 6, 10, 15, 21, 6, 10, 15, 21, 6, 10, 15, 21]

/-- One MD5 round `i` on state `(a, b, c, d)` with 16-word block `m`. -/
def md5Round (m : List Nat) (st : Nat × Nat × Nat × Nat) (i : Nat) :
    Nat × Nat × Nat × Nat :=
  let (a, b, c, d) := st
  let notMask := 4294967295
  let f :=
    if i < 16 then (b &&& c) ||| ((b ^^^ notMask) &&& d)
    else if i < 32 then (d &&& b) ||| ((d ^^^ notMask) &&& c)
    else if i < 48 then b ^^^ c ^^^ d
    else c ^^^ (b ||| (d ^^^ notMask))
  let g :=
    if i < 16 then i
    else if i < 32 then (5 * i + 1) % 16
    else if i < 48 then (3 * i + 5) % 16
    else (7 * i) % 16
  let fv := (f + a + md5K.getD i 0 + m.getD g 0) % 4294967296
  let b' := (b + rotl32 fv (md5S.getD i 0)) % 4294967296
  (d, b', b, c)

/-- MD5 compression of one 16-word block into the running state. -/
def md5Compress (m : List Nat) (st : Nat × Nat × Nat × Nat) :
    Nat × Nat × Nat × Nat :=
  let (a0, b0, c0, d0) := st
  let (a, b, c, d) := (List.range 64).foldl (md5Round m) st
  ((a0 + a) % 4294967296, (b0 + b) % 4294967296,
   (c0 + c) % 4294967296, (d0 + d) % 4294967296)

/-- Fold `md5Compress` over the padded message, 16 words at a time. -/
def md5Blocks : List Nat → Nat × Nat × Nat × Nat → Nat × Nat × Nat × Nat
  | w0 :: w1 :: w2 :: w3 :: w4 :: w5 :: w6 :: w7 ::
    w8 :: w9 :: w10 :: w11 :: w12 :: w13 :: w14 :: w15 :: rest, st =>
      md5Blocks rest
        (md5Compress [w0, w1, w2, w3, w4, w5, w6, w7,
                      w8, w9, w10, w11, w12, w13, w14, w15] st)
  | _, st => st

/-- MD5 padding: append `0x80`, zero-fill to 56 mod 64, then the 64-bit
little-endian bit length. -/
def md5Pad (msg : List Nat) : List Nat :=
  let len := msg.length
  let zeros := (120 - (len + 1) % 64) % 64
  msg ++ [0x80] ++ List.replicate zeros 0 ++ leBytes 8 ((len * 8) % 2 ^ 64)

/-- Group a byte list into little-endian 32-bit words. -/
def bytesToWords : List Nat → List Nat
  | b0 :: b1 :: b2 :: b3 :: rest =>
      (b0 + 256 * b1 + 65536 * b2 + 16777216 * b3) :: bytesToWords rest
  | _ => []

/-- MD5 digest (16 bytes) of a byte list (`hashlib.md5(inp).digest()`). -/
def md5 (msg : List Nat) : List Nat :=
  let (a, b, c, d) :=
    md5Blocks (bytesToWords (md5Pad msg))
      (0x67452301, 0xefcdab89, 0x98badcfe, 0x10325476)
  leBytes 4 a ++ leBytes 4 b ++ leBytes 4 c ++ leBytes 4 d

/-- The URL-safe base64 alphabet (RFC 4648 §5): `A–Z a–z 0–9 - _`. -/
def b64urlAlphabet : List Char :=
  "ABCDEFGHIJKLMNOPQRSTUVWXYZabcdefghijklmnopqrstuvwxyz0123456789-_".data

/-- One base64 character. -/
def b64c (n : Nat) : Char := b64urlAlphabet.getD n 'A'

/-- URL-safe base64 encoding of a byte list, with `=` padding
(Python `base64.urlsafe_b64encode`). -/
def b64urlEncode : List Nat → List Char
  | b0 :: b1 :: b2 :: rest =>
      b64c (b0 / 4) :: b64c ((b0 % 4) * 16 + b1 / 16) ::
      b64c ((b1 % 16) * 4 + b2 / 64) :: b64c (b2 % 64) :: b64urlEncode rest
  | [b0, b1] =>
      [b64c (b0 / 4), b64c ((b0 % 4) * 16 + b1 / 16), b64c ((b1 % 16) * 4), '=']
  | [b0] => [b64c (b0 / 4), b64c ((b0 % 4) * 16), '=', '=']
  | [] => []

/-- Embedding of `CadScript._hash` (`CadScript.py` lines 158–161): the first 11
characters of the URL-safe base64 of the MD5 digest of the UTF-8 bytes of
the input string. -/
def scriptHashOfString (inp : String) : String :=
  ⟨(b64urlEncode (md5 (utf8 inp))).take 11⟩

/-- The parameter serialization of `CadScript.hash`
(`CadScript.py` lines 144–147): concatenation of `name=str(value)&` in
insertion order, empty string for an empty map. -/
def paramsStrPy (ps : List (String × Value)) : String :=
  ps.foldl (fun acc p => acc ++ p.1 ++ "=" ++ pyStr p.2 ++ "&") ""

/-- Embedding of `CadScript.hash` (`CadScript.py` lines 130–155): hash of the script
name concatenated with the Python-`str` parameter serialization. -/
def scriptHash (name : String) (ps : List (String × Value)) : String :=
  scriptHashOfString (name ++ paramsStrPy ps)

/-- Modelled from the spec (§4.2 / claim C2 wording): the fingerprint as
the first 11 characters of the URL-safe base64 of MD5 of the script name
followed by `name=<canonical-json-of-value>&` per parameter in insertion
order.  This is the claim's formula, to be compared with `scriptHash`. -/
def specFingerprint (name : String) (ps : List (String × Value)) : String :=
  scriptHashOfString
    (name ++ ps.foldl (fun acc p => acc ++ p.1 ++ "=" ++ jsonStr p.2 ++ "&") "")

/-! ### Parameter descriptors (`Param.py`) -/

/-- The typed parameter descriptors of `Param.py`
(`ParamConfigNumber` / `ParamConfigBoolean` / `ParamConfigText` /
`ParamConfigOptions`).  Each carries its `iterable` flag (base default
`True`, `ParamConfigText` overrides with `False`).  Numeric bounds are
embedded as `Int` (the source admits `float | int`; floats are outside
this embedding). -/
inductive ParamCfg where
  | number (start endv step : Int) (iterable : Bool)
  | boolean (iterable : Bool)
  | text (iterable : Bool)
  | options (opts : List String) (iterable : Bool)
deriving DecidableEq, Repr

/-- The `iterable` flag of a descriptor. -/
def ParamCfg.iterable : ParamCfg → Bool
  | .number _ _ _ it => it
  | .boolean it => it
  | .text it => it
  | .options _ it => it

/-- Fuel-driven loop behind `arangeInt`: emit `start` and advance by
`step` while `start < stop`.  The fuel `(stop - start).toNat` always
suffices for a positive step. -/
def arangeAux (step : Int) : Nat → Int → Int → List Int
  | 0, _, _ => []
  | fuel + 1, start, stop =>
      if 0 < step ∧ start < stop then
        start :: arangeAux step fuel (start + step) stop
      else []

/-- Embedding of `numpy.arange(start, stop, step)` for a positive step:
the values `start`, `start + step`, …, strictly below `stop` (empty when
`stop ≤ start`).  Non-positive steps, which no claim exercises, give the
empty list. -/
def arangeInt (start stop step : Int) : List Int :=
  arangeAux step (stop - start).toNat start stop

/-- Embedding of the `values()` domain-enumeration method
(`Param.py` lines 46–47 and 73–74).  `ParamConfigNumber.values` returns
`numpy.arange(self.start, self.end + self.step, self.step).tolist()`;
`ParamConfigOptions.values` returns `self.options`.  `ParamConfigBoolean`
and `ParamConfigText` define no `values` method at all (neither does the
base class), so calling it raises `AttributeError` — modelled as `none`. -/
def ParamCfg.values : ParamCfg → Option (List Value)
  | .number start endv step _ =>
      some ((arangeInt start (endv + step) step).map Value.vInt)
  | .options opts _ => some (opts.map Value.vStr)
  | .boolean _ => none
  | .text _ => none

/-- Embedding of `CadScript.is_cachable` (`CadScript.py` lines 163–170):
a script is cachable iff every parameter descriptor is iterable. -/
def isCachable (params : List (String × ParamCfg)) : Bool :=
  params.all (fun p => p.2.iterable)

/-- Embedding of `itertools.product` over a list of domains: tuples in
declaration order, the last list varying fastest. -/
def listProd {α : Type} : List (List α) → List (List α)
  | [] => [[]]
  | l :: ls => l.foldr (fun x acc => (listProd ls).map (fun t => x :: t) ++ acc) []

/-- Option-valued map over a list, failing if any element fails — the
semantics of a Python loop that may raise. -/
def mapMOption {α β : Type} (f : α → Option β) : List α → Option (List β)
  | [] => some []
  | x :: xs =>
      match f x, mapMOption f xs with
      | some y, some ys => some (y :: ys)
      | _, _ => none

/-- Embedding of `CadScript.iterate_possible_model_params_dicts`
(`CadScript.py` lines 218–239): collect `param.values()` for every
declared parameter in insertion order (raising — `none` — if any
descriptor lacks a `values` method), take the Cartesian product, and
yield each combination as a `(hash, {name → value})` pair. -/
def iteratePossibleModelParamsDicts (name : String)
    (params : List (String × ParamCfg)) :
    Option (List (String × List (String × Value))) :=
  match mapMOption (fun p : String × ParamCfg => p.2.values) params with
  | none => none
  | some vss =>
      some ((listProd vss).map (fun combo =>
        let dict := (params.map (·.1)).zip combo
        (scriptHash name dict, dict)))

/-- Embedding of `CadScript.get_num_variants` (`CadScript.py` lines
241–253): the product of `len(param.values())` over all declared
parameters (`none` when a descriptor lacks `values`). -/
def getNumVariants (params : List (String × ParamCfg)) : Option Nat :=
  (mapMOption (fun p : String × ParamCfg => p.2.values) params).map
    (fun vss => vss.foldl (fun acc vs => acc * vs.length) 1)

/-! ### Script records and the catalog (`CadLibrary.py`) -/

/-- A script record: the identity and schema fields of `CadScript.py`
that the catalog and the special-entity handler use. -/
structure CadScript where
  org : String
  name : String
  version : String
  params : List (String × ParamCfg) := []
  param_presets : List (String × List (String × Value)) := []
deriving DecidableEq, Repr

/-- The derived namespace `org/name` of a script
(`CadScript.get_namespace`). -/
def namespaceOf (s : CadScript) : String := s.org ++ "/" ++ s.name

/-- Insert-or-replace into an insertion-ordered dict modelled as an
association list: Python `d[k] = v` keeps an existing key's position and
appends a new key. -/
def upsert {β : Type} (k : String) (v : β) :
    List (String × β) → List (String × β)
  | [] => [(k, v)]
  | (k', v') :: rest =>
      if k' = k then (k, v) :: rest else (k', v') :: upsert k v rest

/-- Parse a decimal numeral. -/
def parseNat (cs : List Char) : Option Nat :=
  if cs ≠ [] ∧ cs.all (fun c => c.isDigit) then
    some (cs.foldl (fun acc c => acc * 10 + (c.toNat - 48)) 0)
  else none

/-- Split a character list on a separator, keeping empty segments. -/
def splitOnChar (sep : Char) : List Char → List (List Char)
  | [] => [[]]
  | c :: rest =>
      if c = sep then [] :: splitOnChar sep rest
      else
        match splitOnChar sep rest with
        | s :: ss => (c :: s) :: ss
        | [] => [[c]]

/-- Embedding of `semver.Version.parse(v, optional_minor_and_patch=True)`
restricted to plain numeric versions: 1–3 dot-separated decimal
components, missing minor/patch defaulting to 0.  Pre-release/build
suffixes (unused by the repository's catalogs) parse to `none`. -/
def parseSemver (s : String) : Option (Nat × Nat × Nat) :=
  match (splitOnChar '.' s.data).mapM parseNat with
  | some [M] => some (M, 0, 0)
  | some [M, m] => some (M, m, 0)
  | some [M, m, p] => some (M, m, p)
  | _ => none

/-- Lexicographic order on parsed semver triples. -/
def verLe (a b : Nat × Nat × Nat) : Prop :=
  a.1 < b.1 ∨ (a.1 = b.1 ∧ (a.2.1 < b.2.1 ∨ (a.2.1 = b.2.1 ∧ a.2.2 ≤ b.2.2)))

instance (a b : Nat × Nat × Nat) : Decidable (verLe a b) := by
  unfold verLe; infer_instance

/-- Stable insertion into a key-sorted list (new element goes after
existing equal keys, as Python's stable `sorted`). -/
def insertByKey (x : CadScript × (Nat × Nat × Nat)) :
    List (CadScript × (Nat × Nat × Nat)) → List (CadScript × (Nat × Nat × Nat))
  | [] => [x]
  | y :: ys => if verLe y.2 x.2 then y :: insertByKey x ys else x :: y :: ys

/-- Embedding of `sorted(scripts, key=lambda s: Version.parse(s.version,
optional_minor_and_patch=True))` (`CadLibrary.py` line 123): parse every
key (raising — `none` — on an invalid version), then sort stably and
ascending by the parsed triple. -/
def sortScriptsByVersion (l : List CadScript) : Option (List CadScript) :=
  (mapMOption (fun s => (parseSemver s.version).map (fun k => (s, k))) l).map
    (fun ps => (ps.foldl (fun acc p => insertByKey p acc) []).map (·.1))

/-- The in-memory indexes that `CadLibrary.order_scripts` maintains:
`latest_scripts` and `script_versions`, both keyed by namespace. -/
structure Catalog where
  latest_scripts : List (String × CadScript)
  script_versions : List (String × List String)
deriving DecidableEq, Repr

/-- The loop body of `CadLibrary.order_scripts` (`CadLibrary.py` lines
108–125), processing the remaining scripts against the full list `all`:
for each script, filter `all` by *name only* (line 117), short-circuit
single-element namespaces, otherwise guard on
`latest_scripts.get(script.name)` (line 122) and store the semver-sorted
versions and the last (greatest) record under the script's namespace. -/
def orderScriptsAux (all : List CadScript) :
    List CadScript → Catalog → Option Catalog
  | [], st => some st
  | s :: rest, st =>
      let byName := all.filter (fun t => t.name == s.name)
      if byName.length = 1 then
        orderScriptsAux all rest
          ⟨upsert (namespaceOf s) s st.latest_scripts,
           upsert (namespaceOf s) [s.version] st.script_versions⟩
      else
        match st.latest_scripts.lookup s.name with
        | some _ => orderScriptsAux all rest st
        | none =>
            match sortScriptsByVersion byName with
            | none => none
            | some sorted =>
                match sorted.getLast? with
                | none => none
                | some lastS =>
                    orderScriptsAux all rest
                      ⟨upsert (namespaceOf s) lastS st.latest_scripts,
                       upsert (namespaceOf s) (sorted.map (·.version))
                         st.script_versions⟩

/-- Embedding of `CadLibrary.order_scripts`: rebuild `latest_scripts` and
`script_versions` from scratch over the script list. -/
def order_scripts (scripts : List CadScript) : Option Catalog :=
  orderScriptsAux scripts scripts ⟨[], []⟩

/-- Embedding of `CadLibrary.get_script_request` (`CadLibrary.py` lines
128–152): a `None` version resolves through `latest_scripts` by the
namespace key; an explicit version takes the first exact
(org, name, version) match in the script list. -/
def get_script_request (cat : Catalog) (scripts : List CadScript)
    (org name : String) (version : Option String) : Option CadScript :=
  match version with
  | none => cat.latest_scripts.lookup (org ++ "/" ++ name)
  | some v =>
      (scripts.filter
        (fun s => s.org == org && s.name == name && s.version == v)).head?

/-- Embedding of `CadLibrary.get_script_versions`: look the script's
namespace up in `script_versions`. -/
def get_script_versions (cat : Catalog) (s : CadScript) :
    Option (List String) :=
  cat.script_versions.lookup (namespaceOf s)

/-- The scripts of one namespace: the filter `order_scripts` *should*
use (and does use exactly when script names are unique across orgs). -/
def filterNs (all : List CadScript) (k : String) : List CadScript :=
  all.filter (fun t => namespaceOf t == k)

/-- Correctness of a catalog at one namespace key: the version index
holds the semver-sorted versions of exactly that namespace's scripts and
the latest index holds the last (greatest) of them. -/
def GoodAt (all : List CadScript) (cat : Catalog) (k : String) : Prop :=
  ∃ sorted, sortScriptsByVersion (filterNs all k) = some sorted ∧
    cat.script_versions.lookup k = some (sorted.map (·.version)) ∧
    cat.latest_scripts.lookup k = sorted.getLast?

/-- A two-script catalog whose scripts share the name `box` across two
different orgs — legal input (namespaces are distinct) on which the
name-only filter of `order_scripts` mixes the namespaces up. -/
def demoCross : List CadScript :=
  [{ org := "org1", name := "box", version := "1.0.0" },
   { org := "org2", name := "box", version := "2.0.0" }]

/-- A two-version single-namespace catalog (the intended use). -/
def demoNs : List CadScript :=
  [{ org := "acme", name := "box", version := "2.0.0" },
   { org := "acme", name := "box", version := "1.0.0" }]

/-! ### Special-entity handling (`ModelRequestHandler.handle` lines
240–250 and the `ApiGenerator` version endpoints) -/

/-- The three introspection responses of the special-entity branch. -/
inductive SpecialEntityResponse where
  | versionsOut (v : Option (List String))
  | paramsOut (p : Option (List (String × ParamCfg)))
  | presetsOut (p : Option (List (String × List (String × Value))))
  | notSpecial
deriving DecidableEq, Repr

/-- Embedding of the special-entity prefix of `ModelRequestHandler.handle`
(`ModelRequestHandler.py` lines 240–250): the script is resolved with
`get_script_request(org=req.script_org, name=req.script_name)` — version
omitted, hence the latest — and `versions` / `params` / `presets` are
answered from that record (or `None` when the namespace is unknown).
The request's version field is received but not consulted. -/
def handleSpecialEntity (cat : Catalog) (req_org req_name : String)
    (_req_version : Option String) (entity : Option String) :
    SpecialEntityResponse :=
  let script := cat.latest_scripts.lookup (req_org ++ "/" ++ req_name)
  match entity with
  | some "versions" =>
      .versionsOut (script.bind (fun s => get_script_versions cat s))
  | some "params" => .paramsOut (script.map (·.params))
  | some "presets" => .presetsOut (script.map (·.param_presets))
  | _ => .notSpecial

/-- Embedding of the `GET /{org}/{name}/{version}/params` endpoint
(`ApiGenerator._generate_version_endpoint`, lines 143–149): it fills
`script_org`, `script_name`, `script_version` from the version-specific
script record, sets the special entity to `params`, and calls `handle`. -/
def getModelGetParams (cat : Catalog) (script : CadScript) :
    SpecialEntityResponse :=
  handleSpecialEntity cat script.org script.name (some script.version)
    (some "params")

/-- Embedding of the `GET /{org}/{name}/{version}/presets` endpoint
(`ApiGenerator._generate_version_endpoint`, lines 151–157). -/
def getModelGetPresets (cat : Catalog) (script : CadScript) :
    SpecialEntityResponse :=
  handleSpecialEntity cat script.org script.name (some script.version)
    (some "presets")

/-! ### Cache write-back (`CadLibrary.checkin_script_result_in_cache`) -/

/-- The fields of `ModelResult` (`models.py` lines 126–138) that the
cache writer consults: the success flag, the models dict (format →
payload string, `step` raw text, `stl`/`gltf` base64), the auxiliary
files dict, and the error list. -/
structure WorkerResult where
  success : Bool
  models : List (String × String)
  files : List (String × String)
  errors : List String
deriving DecidableEq, Repr

/-- Python truthiness of `d.get(k)` on a string-valued dict: the key is
bound and its value is a non-empty string. -/
def truthyLookup (l : List (String × String)) (k : String) : Bool :=
  match l.lookup k with
  | some v => !(v == "")
  | none => false

/-- Embedding of `CadLibrary.checkin_script_result_in_cache`
(`CadLibrary.py` lines 636–686) as the list of file names it writes into
the fingerprint directory, in write order: nothing unless the script
`is_cachable()`; `result.json` only when the models dict is non-empty
(line 648); `result.step` / `result.stl` / `result.gltf` only when the
corresponding entry is truthy (lines 651–661); then every auxiliary
file of `results.files` (lines 668–673).  The function never consults
`results.success`. -/
def checkinScriptResultWrites (params : List (String × ParamCfg))
    (res : WorkerResult) : List String :=
  if isCachable params then
    (if 0 < res.models.length then
        ["result.json"]
        ++ (if truthyLookup res.models "step" then ["result.step"] else [])
        ++ (if truthyLookup res.models "stl" then ["result.stl"] else [])
        ++ (if truthyLookup res.models "gltf" then ["result.gltf"] else [])
      else [])
    ++ res.files.map (·.1)
  else []

/-- The responses `ModelRequestHandler.handle_requested_script_result`
can produce (an HTTP 404 carrying the worker's error list, or a served
result). -/
inductive HandleResponse where
  | httpError (code : Nat) (errors : List String)
  | fullJson
  | modelFile
deriving DecidableEq, Repr

/-- Embedding of `ModelRequestHandler.handle_requested_script_result`
(`ModelRequestHandler.py` lines 175–221) on the non-special-entity path,
as (files written to the cache, response): on `success=True` it checks
the result into the cache only when `new=True` and serves per `output`;
on `success=False` it writes nothing and raises
`HTTPException(status_code=404, ...)` carrying the result's error list.
The detached monitor (`monitor_for_celery_result`, lines 322–328) funnels
its result through this same function with `new=True`. -/
def handleRequestedScriptResult (params : List (String × ParamCfg))
    (res : WorkerResult) (new : Bool) (output : String) :
    List String × HandleResponse :=
  if res.success then
    ((if new then checkinScriptResultWrites params res else []),
     if output = "full" then .fullJson else .modelFile)
  else ([], .httpError 404 res.errors)

/-- Embedding of the batch path
`CadLibrary._submit_and_handle_compute_script_task` (`CadLibrary.py`
lines 692–719) as the list of cache files it writes: it calls
`checkin_script_result_in_cache(script_result)` unconditionally (line
703), with no check of the result's success flag. -/
def submitAndHandleComputeWrites (params : List (String × ParamCfg))
    (res : WorkerResult) : List String :=
  checkinScriptResultWrites params res

/-! ### Dispatcher coalescing state (`ModelRequestHandler.handle`,
`CadLibrary.set_script_model_is_computing`,
`CadLibrary.check_script_model_computing_job`) -/

/-- Contents of one fingerprint directory of the cache: empty (or
absent), holding a `<task-id>.compute` in-flight marker, or holding a
committed `result.json` bundle.  `set_script_model_is_computing` clears
the directory before writing the marker and
`checkin_script_result_in_cache` removes the markers, so the three
shapes are mutually exclusive. -/
inductive FpDir where
  | empty
  | marker (taskId : String)
  | cachedResult
deriving DecidableEq, Repr

/-- The dispatcher-visible state for one fingerprint: the fingerprint
directory plus the worker tasks enqueued (via `apply_async`) for it. -/
structure DispatchState where
  dir : FpDir
  queue : List String
deriving DecidableEq, Repr

/-- The outcome of the cache-miss decision chain of
`ModelRequestHandler.handle`. -/
inductive DispatchDecision where
  | serveCached
  | redirectToJob (taskId : String)
  | enqueueNew
deriving DecidableEq, Repr

/-- Embedding of the decision chain of `ModelRequestHandler.handle`
(`ModelRequestHandler.py` lines 260–292) for a connected dispatcher with
workers: `is_cached` (the directory holds `result.json`) serves from
cache; otherwise `check_script_model_computing_job` (the directory holds
a `.compute` marker) redirects to the job URL with
`set_compute_status=False` — writing nothing and enqueuing nothing;
otherwise a new worker task is enqueued with `apply_async`. -/
def handleDecision (st : DispatchState) : DispatchDecision :=
  match st.dir with
  | .cachedResult => .serveCached
  | .marker t => .redirectToJob t
  | .empty => .enqueueNew

/-- State effect of the decision: only `enqueueNew` changes anything —
it appends the new task id to the queue (`apply_async`,
`ModelRequestHandler.py` line 279).  No in-flight marker is written at
enqueue time. -/
def applyDecision (st : DispatchState) (d : DispatchDecision)
    (newTask : String) : DispatchState :=
  match d with
  | .enqueueNew => ⟨st.dir, st.queue ++ [newTask]⟩
  | _ => st

/-- Embedding of `CadLibrary.set_script_model_is_computing`
(`CadLibrary.py` lines 533–553), reached only when the redirect timer
wins the race (`go_to_computing_job_url` with `set_compute_status=True`):
clear the fingerprint directory and write the `<task-id>.compute`
marker. -/
def setScriptModelIsComputing (st : DispatchState) (taskId : String) :
    DispatchState :=
  ⟨.marker taskId, st.queue⟩

/-- Resolution of the race when the worker result arrives in time (or by
the detached monitor): the result is checked into the cache and the
`.compute` markers are removed. -/
def resolveResultArrived (st : DispatchState) : DispatchState :=
  ⟨.cachedResult, st.queue⟩

/-! ### Job redirect URL and the polling route (`go_to_computing_job_url`
and `main.get_model_compute_task`) -/

/-- Embedding of the redirect URL built by
`ModelRequestHandler.go_to_computing_job_url` (`ModelRequestHandler.py`
line 398): the f-string
`/{org}/{name}/{version}/{hash}/job/{task_id}` (with
`REDIRECTING_COMPUTING_STATE = 'job'`). -/
def goToComputingJobUrl (org name version hash taskId : String) : String :=
  "/" ++ org ++ "/" ++ name ++ "/" ++ version ++ "/" ++ hash ++ "/job/"
    ++ taskId

/-- Path segments of a URL path (split on `/`, keeping empty segments). -/
def pathSegments (s : String) : List String :=
  (splitOnChar '/' s.data).map (fun cs => ⟨cs⟩)

/-- Embedding of the FastAPI route
`@app.get('/{script_org}/{script_name}/{script_instance_hash}/job/{celery_task_id}')`
(`main.py` line 36): it matches a path of exactly five segments whose
fourth is the literal `job`, each path parameter consuming one non-empty
slash-free segment. -/
def matchJobRoute (path : String) :
    Option (String × String × String × String) :=
  match pathSegments path with
  | ["", o, n, h, j, t] =>
      if j = "job" ∧ o ≠ "" ∧ n ≠ "" ∧ h ≠ "" ∧ t ≠ "" then some (o, n, h, t)
      else none
  | _ => none

/-! ### Task states and the job poller (`celery_tasks.py`, `main.py`) -/

/-- Celery task states as observed through the result backend: the five
built-in states, the custom `SENT` sentinel, and `REVOKED`. -/
inductive TaskState where
  | PENDING
  | SENT
  | STARTED
  | SUCCESS
  | FAILURE
  | RETRY
  | REVOKED
deriving DecidableEq, Repr

/-- The state the result backend reports for a task id: the stored state,
or `PENDING` when nothing is stored (Celery reports unknown ids as
`PENDING`). -/
def reportedState (backend : List (String × TaskState)) (taskId : String) :
    TaskState :=
  (backend.lookup taskId).getD .PENDING

/-- Embedding of the dispatcher-side enqueue effect on the result
backend: `apply_async` publishes the task, which fires the
`after_task_publish` signal handler `update_sent_state`
(`celery_tasks.py` lines 110–117) in the publishing process, storing the
`SENT` sentinel for the task id. -/
def applyAsyncBackend (backend : List (String × TaskState))
    (taskId : String) : List (String × TaskState) :=
  upsert taskId .SENT backend

/-- Celery `AsyncResult.ready()`: true exactly on the ready states
`SUCCESS`, `FAILURE`, `REVOKED`. -/
def taskReady : TaskState → Bool
  | .SUCCESS => true
  | .FAILURE => true
  | .REVOKED => true
  | _ => false

/-- Responses of the job-polling endpoint. -/
inductive PollResponse where
  | notFound
  | finished
  | accepted (taskId : String) (state : TaskState)
deriving DecidableEq, Repr

/-- Embedding of `main.get_model_compute_task` (`main.py` lines 36–77):
a reported state in `['PENDING', 'FAILURE']` raises the 404 "Compute
task not found or in error state"; otherwise a ready task returns its
result; otherwise the in-flight marker is consulted — its absence is
the same 404, its presence a `202 Accepted` job report. -/
def getModelComputeTask (state : TaskState) (markerTask : Option String) :
    PollResponse :=
  if state = .PENDING ∨ state = .FAILURE then .notFound
  else if taskReady state then .finished
  else
    match markerTask with
    | none => .notFound
    | some t => .accepted t state

/-! ## Helper lemmas -/

/-- Looking a key up after an upsert: the upserted key maps to the new
value, every other key is untouched. -/
theorem lookup_upsert {β : Type} (kn : String) (vn : β) (k : String) :
    ∀ l : List (String × β),
      (upsert kn vn l).lookup k = if k = kn then some vn else l.lookup k
  | [] => by
      by_cases h : k = kn
      · simp [upsert, List.lookup, h]
      · have hb : (k == kn) = false := beq_eq_false_iff_ne.mpr h
        simp [upsert, List.lookup, h, hb]
  | (k', v') :: rest => by
      by_cases h1 : k' = kn
      · subst h1
        by_cases h2 : k = k'
        · simp [upsert, List.lookup, h2]
        · have hb : (k == k') = false := beq_eq_false_iff_ne.mpr h2
          simp [upsert, List.lookup, h2, hb]
      · by_cases h2 : k = k'
        · subst h2
          simp [upsert, h1, List.lookup, Ne.symm h1]
        · have hb : (k == k') = false := beq_eq_false_iff_ne.mpr h2
          simp [upsert, h1, List.lookup, h2, hb, lookup_upsert kn vn k rest]

/-- Python `str()` and canonical JSON agree on integer values. -/
theorem pyStr_eq_jsonStr_of_isInt (v : Value) (h : v.isInt = true) :
    pyStr v = jsonStr v := by
  cases v <;> simp_all [Value.isInt, pyStr, jsonStr]

/-- The two parameter serializations agree when every value serializes
identically under both. -/
theorem foldSer_congr (ps : List (String × Value))
    (h : ∀ p ∈ ps, pyStr p.2 = jsonStr p.2) :
    ∀ acc : String,
      ps.foldl (fun acc p => acc ++ p.1 ++ "=" ++ pyStr p.2 ++ "&") acc =
      ps.foldl (fun acc p => acc ++ p.1 ++ "=" ++ jsonStr p.2 ++ "&") acc := by
  induction ps with
  | nil => intro acc; rfl
  | cons p rest ih =>
      intro acc
      have hp := h p (by simp)
      simp only [List.foldl_cons, hp]
      exact ih (fun q hq => h q (by simp [hq])) _

/-! ## C1 — request coalescing on the in-flight marker -/

/-- C1 (counterexample): the in-flight marker is written only when the
redirect timer wins, not at enqueue time.  Start from an empty
fingerprint directory: the first request's decision is `enqueueNew`,
leaving the state with task `t1` queued, nothing cached and no marker.
A second identical request arriving in that window — the first request
is queued and not yet cached — again decides `enqueueNew` and enqueues a
second worker task `t2`, instead of observing a marker and redirecting. -/
theorem second_request_while_first_queued_enqueues_again :
    handleDecision ⟨.empty, []⟩ = .enqueueNew ∧
    applyDecision ⟨.empty, []⟩ (handleDecision ⟨.empty, []⟩) "t1" =
      ⟨.empty, ["t1"]⟩ ∧
    (⟨.empty, ["t1"]⟩ : DispatchState).dir ≠ .cachedResult ∧
    "t1" ∈ (⟨.empty, ["t1"]⟩ : DispatchState).queue ∧
    handleDecision ⟨.empty, ["t1"]⟩ = .enqueueNew ∧
    applyDecision ⟨.empty, ["t1"]⟩ (handleDecision ⟨.empty, ["t1"]⟩) "t2" =
      ⟨.empty, ["t1", "t2"]⟩ := by
  decide

/-- C1 (amended): once the in-flight marker is on disk (written by the
first request's timeout path via `set_script_model_is_computing`), any
request that is not served from cache observes it and is answered with a
redirect to that task's job URL, without enqueuing a new worker task and
without touching the state. -/
theorem marker_observed_redirects_without_enqueue
    (st : DispatchState) (t : String) (h : st.dir = .marker t) :
    handleDecision st = .redirectToJob t ∧
    ∀ u, applyDecision st (handleDecision st) u = st := by
  obtain ⟨dir, queue⟩ := st
  cases h
  exact ⟨rfl, fun _ => rfl⟩

/-- Witness for `marker_observed_redirects_without_enqueue` at a state
holding the marker of task `t1`. -/
theorem marker_observed_redirects_without_enqueue_witness :
    (⟨.marker "t1", ["t1"]⟩ : DispatchState).dir = .marker "t1" ∧
    handleDecision ⟨.marker "t1", ["t1"]⟩ = .redirectToJob "t1" ∧
    applyDecision ⟨.marker "t1", ["t1"]⟩
      (handleDecision ⟨.marker "t1", ["t1"]⟩) "t2" = ⟨.marker "t1", ["t1"]⟩ :=
  ⟨rfl,
   (marker_observed_redirects_without_enqueue ⟨.marker "t1", ["t1"]⟩ "t1" rfl).1,
   (marker_observed_redirects_without_enqueue ⟨.marker "t1", ["t1"]⟩ "t1" rfl).2 "t2"⟩

/-! ## C2 — the fingerprint function -/

/-- C2 (counterexample): `CadScript.hash` serializes a `None` parameter
value with Python `str()` as the literal `None`, not as JSON `null`, so
for the script `box` with parameter map `{a: null}` the computed
fingerprint differs from the claim's formula (both sides computed through
the same MD5 / URL-safe-base64 / truncate-11 pipeline). -/
theorem hash_serializes_none_not_null :
    scriptHash "box" [("a", Value.vNone)] = "gKo2nJCM03Z" ∧
    specFingerprint "box" [("a", Value.vNone)] = "w07B82WUCGn" ∧
    scriptHash "box" [("a", Value.vNone)] ≠
      specFingerprint "box" [("a", Value.vNone)] := by
  refine ⟨by decide, by decide, ?_⟩
  intro h
  have h1 : scriptHash "box" [("a", Value.vNone)] = "gKo2nJCM03Z" := by decide
  have h2 : specFingerprint "box" [("a", Value.vNone)] = "w07B82WUCGn" := by decide
  rw [h1, h2] at h
  exact absurd h (by decide)

/-- C2 (amended): the fingerprint is the first 11 characters of the
URL-safe base64 of the MD5 of the script name followed by
`name=str(value)&` per parameter in insertion order; on parameter maps
whose values are all integers (where Python `str()` coincides with
canonical JSON) this equals the claim's canonical-JSON formula. -/
theorem hash_matches_spec_fingerprint_on_int_params
    (name : String) (ps : List (String × Value))
    (h : ps.all (fun p => p.2.isInt) = true) :
    scriptHash name ps = specFingerprint name ps := by
  unfold scriptHash specFingerprint paramsStrPy
  have hall : ∀ p ∈ ps, pyStr p.2 = jsonStr p.2 := by
    intro p hp
    exact pyStr_eq_jsonStr_of_isInt p.2 (by
      have := List.all_eq_true.mp h p hp
      simpa using this)
  rw [foldSer_congr ps hall ""]

/-- Witness for `hash_matches_spec_fingerprint_on_int_params` on the
integer parameter map `{a: 10}`. -/
theorem hash_matches_spec_fingerprint_on_int_params_witness :
    ([("a", Value.vInt 10)].all (fun p => p.2.isInt) = true) ∧
    scriptHash "box" [("a", Value.vInt 10)] =
      specFingerprint "box" [("a", Value.vInt 10)] :=
  ⟨by decide,
   hash_matches_spec_fingerprint_on_int_params "box" [("a", Value.vInt 10)]
     (by decide)⟩

/-! ## C3 — the job redirect URL vs the polling route -/

/-- C3 (code bug): the redirect built by `go_to_computing_job_url`
contains six path segments (`/org/name/version/hash/job/task`), while the
polling route of `main.py` matches five
(`/{script_org}/{script_name}/{script_instance_hash}/job/{celery_task_id}`,
no version segment).  At the concrete long-path redirect for
`tests/box/1.0.0` the issued URL does not match the poller's route at
all, whereas the five-segment URL without the version does. -/
theorem job_redirect_url_not_served_by_poller_route :
    matchJobRoute (goToComputingJobUrl "tests" "box" "1.0.0" "dbYLCTkbT-e" "t1")
      = none ∧
    matchJobRoute "/tests/box/dbYLCTkbT-e/job/t1" =
      some ("tests", "box", "dbYLCTkbT-e", "t1") := by
  decide

/-! ## C4 — the SENT sentinel and the poller's unknown-state handling -/

/-- C4 (counterexample): the claim says the poller answers "not found"
for a state outside `{SENT, STARTED, SUCCESS, FAILURE, RETRY}` *and only
such a state*; but `FAILURE` is inside that set and the poller still
answers it with the 404 (`main.py` line 56 treats
`['PENDING', 'FAILURE']` alike). -/
theorem poller_errors_on_failure_state_in_known_set :
    getModelComputeTask .FAILURE (some "t1") = .notFound ∧
    TaskState.FAILURE ∈
      [TaskState.SENT, TaskState.STARTED, TaskState.SUCCESS,
       TaskState.FAILURE, TaskState.RETRY] := by
  decide

/-- C4 (amended): immediately after `apply_async` the
`after_task_publish` signal stores the `SENT` sentinel for the task in
the result backend, so an unknown task is exactly one reporting
`PENDING`; and the poller answers "not found" exactly when the reported
state is `PENDING` or `FAILURE`, or the task is not ready
(`SENT`/`STARTED`/`RETRY`) and no in-flight marker exists. -/
theorem sent_after_enqueue_and_poller_notfound_characterization :
    (∀ (backend : List (String × TaskState)) (taskId : String),
        reportedState (applyAsyncBackend backend taskId) taskId = .SENT) ∧
    (∀ (st : TaskState) (mt : Option String),
        getModelComputeTask st mt = .notFound ↔
          (st = .PENDING ∨ st = .FAILURE ∨
            ((st = .SENT ∨ st = .STARTED ∨ st = .RETRY) ∧ mt = none))) := by
  constructor
  · intro backend taskId
    simp [reportedState, applyAsyncBackend, lookup_upsert]
  · intro st mt
    cases st <;> cases mt <;> simp [getModelComputeTask, taskReady]

/-! ## C6 — failed results and the cache -/

/-- C6 (counterexample): on the batch path
(`_submit_and_handle_compute_script_task`) the result is checked into
the cache with no success check, so a failed result (`success=False`)
that carries a model payload and an auxiliary file gets `result.json`,
`result.step` and the auxiliary file written into the fingerprint
directory. -/
theorem failed_batch_result_written_to_cache :
    (⟨false, [("step", "s")], [("doc.pdf", "zz")], ["boom"]⟩ :
        WorkerResult).success = false ∧
    submitAndHandleComputeWrites []
        ⟨false, [("step", "s")], [("doc.pdf", "zz")], ["boom"]⟩ =
      ["result.json", "result.step", "doc.pdf"] := by
  decide

/-- C6 (amended): on the direct request path and on the detached-monitor
path — both of which go through `handle_requested_script_result` — a
result whose success flag is false writes nothing to the cache and is
answered with an HTTP 404 carrying the result's error list.  (The batch
path commits results without consulting the success flag.) -/
theorem failed_result_never_cached_on_request_path
    (params : List (String × ParamCfg)) (res : WorkerResult)
    (new : Bool) (output : String) (h : res.success = false) :
    handleRequestedScriptResult params res new output =
      ([], .httpError 404 res.errors) := by
  simp [handleRequestedScriptResult, h]

/-- Witness for `failed_result_never_cached_on_request_path` at a
concrete failed result on the monitor path (`new = true`). -/
theorem failed_result_never_cached_on_request_path_witness :
    (⟨false, [("step", "s")], [], ["err1", "err2"]⟩ : WorkerResult).success
        = false ∧
    handleRequestedScriptResult []
        ⟨false, [("step", "s")], [], ["err1", "err2"]⟩ true "full" =
      ([], .httpError 404 ["err1", "err2"]) :=
  ⟨rfl,
   failed_result_never_cached_on_request_path []
     ⟨false, [("step", "s")], [], ["err1", "err2"]⟩ true "full" rfl⟩

/-! ## C7 — the Number parameter domain -/

/-- Membership characterization of the arange loop: with positive step
and sufficient fuel, the emitted values are exactly the grid points
`start + k * step` strictly below `stop`. -/
theorem arangeAux_mem (step : Int) (hstep : 0 < step) (x : Int) :
    ∀ (fuel : Nat) (start stop : Int), (stop - start).toNat ≤ fuel →
      (x ∈ arangeAux step fuel start stop ↔
        ∃ k : Nat, x = start + k * step ∧ x < stop) := by
  intro fuel
  induction fuel with
  | zero =>
      intro start stop hf
      have hss : stop ≤ start := by omega
      simp only [arangeAux, List.not_mem_nil, false_iff]
      rintro ⟨k, rfl, hk⟩
      have hk0 : (0 : Int) ≤ (k : Int) * step :=
        mul_nonneg (Int.natCast_nonneg k) hstep.le
      linarith
  | succ fuel ih =>
      intro start stop hf
      by_cases hlt : start < stop
      · have hcond : 0 < step ∧ start < stop := ⟨hstep, hlt⟩
        have hf' : (stop - (start + step)).toNat ≤ fuel := by omega
        simp only [arangeAux, if_pos hcond, List.mem_cons, ih (start + step) stop hf']
        constructor
        · rintro (rfl | ⟨k, rfl, hk⟩)
          · exact ⟨0, by ring, hlt⟩
          · exact ⟨k + 1, by push_cast; ring, hk⟩
        · rintro ⟨k, rfl, hk⟩
          cases k with
          | zero => left; ring
          | succ j =>
              right
              exact ⟨j, by push_cast; ring, hk⟩
      · have hcond : ¬(0 < step ∧ start < stop) := by tauto
        simp only [arangeAux, if_neg hcond, List.not_mem_nil, false_iff]
        rintro ⟨k, rfl, hk⟩
        have hk0 : (0 : Int) ≤ (k : Int) * step :=
          mul_nonneg (Int.natCast_nonneg k) hstep.le
        linarith

/-- Membership in `arangeInt` for a positive step. -/
theorem arangeInt_mem (start stop step : Int) (hstep : 0 < step) (x : Int) :
    x ∈ arangeInt start stop step ↔
      ∃ k : Nat, x = start + k * step ∧ x < stop :=
  arangeAux_mem step hstep x (stop - start).toNat start stop le_rfl

/-- C7 (counterexample): the enumerated domain of
`Number {start=0, end=5, step=2}` is `numpy.arange(0, 5+2, 2) =
[0, 2, 4, 6]`, which contains 6 — an enumerated value exceeding `end`,
contradicting the claim's "no enumerated value exceeds end". -/
theorem number_domain_exceeds_end_off_grid :
    (ParamCfg.number 0 5 2 true).values =
      some [Value.vInt 0, Value.vInt 2, Value.vInt 4, Value.vInt 6] ∧
    Value.vInt 6 ∈
      [Value.vInt 0, Value.vInt 2, Value.vInt 4, Value.vInt 6] ∧
    ¬ ((6 : Int) ≤ 5) := by
  decide

/-- C7 (amended): for a positive step the enumerated domain of a Number
descriptor is exactly the grid points `start + k * step` strictly below
`end + step` — so `end` itself is included whenever it lies on the grid,
and when `end` is off the grid the last value is the greatest grid point
below `end + step`, which may exceed `end` (by less than `step`). -/
theorem number_values_arange_characterization
    (start endv step : Int) (it : Bool) (hstep : 0 < step) :
    ∃ l : List Int,
      (ParamCfg.number start endv step it).values = some (l.map Value.vInt) ∧
      (∀ x : Int, x ∈ l ↔ ∃ k : Nat, x = start + k * step ∧ x < endv + step) ∧
      (start ≤ endv → (endv - start) % step = 0 → endv ∈ l) := by
  refine ⟨arangeInt start (endv + step) step, rfl,
    fun x => arangeInt_mem start (endv + step) step hstep x, ?_⟩
  intro hle hmod
  rw [arangeInt_mem start (endv + step) step hstep]
  have hdvd : step ∣ (endv - start) := Int.dvd_of_emod_eq_zero hmod
  obtain ⟨c, hc⟩ := hdvd
  have hc0 : 0 ≤ c := by
    by_contra hneg
    push_neg at hneg
    have : step * c < 0 := mul_neg_of_pos_of_neg hstep hneg
    linarith
  refine ⟨c.toNat, ?_, by linarith⟩
  have hcast : ((c.toNat : Nat) : Int) = c := Int.toNat_of_nonneg hc0
  rw [hcast]
  linarith [hc, mul_comm step c]

/-- Witness for `number_values_arange_characterization` with
`Number {start=0, end=6, step=2}` (an on-grid end). -/
theorem number_values_arange_characterization_witness :
    (0 : Int) < 2 ∧
    (∃ l : List Int,
      (ParamCfg.number 0 6 2 true).values = some (l.map Value.vInt) ∧
      (∀ x : Int, x ∈ l ↔ ∃ k : Nat, x = 0 + k * 2 ∧ x < 6 + 2) ∧
      ((0 : Int) ≤ 6 → ((6 : Int) - 0) % 2 = 0 → (6 : Int) ∈ l)) :=
  ⟨by decide, number_values_arange_characterization 0 6 2 true (by decide)⟩

/-! ## C8 — batch enumeration with a Boolean parameter -/

/-- C8 (code bug): a script whose only parameter is a Boolean is
cachable (`iterable` defaults to true), yet neither
`ParamConfigBoolean` nor its base class defines `values()`, so
`iterate_possible_model_params_dicts` and `get_num_variants` raise
`AttributeError` (modelled as `none`) instead of enumerating the
`[false, true]` domain the spec prescribes. -/
theorem boolean_param_enumeration_raises :
    isCachable [("flag", ParamCfg.boolean true)] = true ∧
    iteratePossibleModelParamsDicts "box" [("flag", ParamCfg.boolean true)]
      = none ∧
    getNumVariants [("flag", ParamCfg.boolean true)] = none := by
  decide

/-! ## C9 — result.json iff artifact -/

/-- C9 (counterexample): committing a result whose models dict binds
`step` to an empty payload writes `result.json` (the dict is non-empty)
but no `result.step` (the payload is falsy), so `result.json` exists
with no `result.<fmt>` beside it. -/
theorem result_json_without_artifact_on_empty_payload :
    checkinScriptResultWrites [] ⟨true, [("step", "")], [], []⟩ =
      ["result.json"] ∧
    "result.step" ∉ (["result.json"] : List String) ∧
    "result.stl" ∉ (["result.json"] : List String) ∧
    "result.gltf" ∉ (["result.json"] : List String) := by
  decide

/-- C9 (amended): when every model payload is a non-empty string under a
format key and no auxiliary file usurps one of the reserved names, a
commit writes `result.json` if and only if it writes at least one
`result.<fmt>` artifact. -/
theorem result_json_iff_artifact_under_nonempty_payloads
    (params : List (String × ParamCfg)) (res : WorkerResult)
    (hmodels : ∀ p ∈ res.models,
        p.2 ≠ "" ∧ p.1 ∈ (["step", "stl", "gltf"] : List String))
    (hfiles : ∀ f ∈ res.files,
        f.1 ∉ (["result.json", "result.step", "result.stl", "result.gltf"] :
          List String)) :
    ("result.json" ∈ checkinScriptResultWrites params res ↔
      "result.step" ∈ checkinScriptResultWrites params res ∨
      "result.stl" ∈ checkinScriptResultWrites params res ∨
      "result.gltf" ∈ checkinScriptResultWrites params res) := by
  unfold checkinScriptResultWrites
  by_cases hc : isCachable params = true
  case neg =>
    simp [hc]
  case pos =>
    have hnotin : ∀ nm ∈ (["result.json", "result.step", "result.stl",
        "result.gltf"] : List String), nm ∉ res.files.map Prod.fst := by
      intro nm hnm hmem
      obtain ⟨f, hf, rfl⟩ := List.mem_map.mp hmem
      exact hfiles f hf hnm
    rcases hres : res.models with _ | ⟨p, rest⟩
    · have h1 := hnotin "result.json" (by simp)
      have h2 := hnotin "result.step" (by simp)
      have h3 := hnotin "result.stl" (by simp)
      have h4 := hnotin "result.gltf" (by simp)
      simp [hc, hres, h1, h2, h3, h4]
    · obtain ⟨hpv, hpk⟩ := hmodels p (by rw [hres]; exact List.mem_cons_self p rest)
      have hlen : 0 < (p :: rest).length := by simp
      have htruthy : truthyLookup (p :: rest) p.1 = true := by
        obtain ⟨k, v⟩ := p
        simp only [truthyLookup, List.lookup, beq_self_eq_true]
        simp only at hpv
        simp [beq_eq_false_iff_ne.mpr hpv]
      constructor
      · intro _
        simp only [List.mem_cons, List.not_mem_nil, or_false,
          List.mem_singleton] at hpk
        rcases hpk with hk | hk | hk
        · rw [hk] at htruthy
          left; simp [hc, hlen, htruthy]
        · rw [hk] at htruthy
          right; left; simp [hc, hlen, htruthy]
        · rw [hk] at htruthy
          right; right; simp [hc, hlen, htruthy]
      · intro _
        simp [hc, hlen]

/-- Witness for `result_json_iff_artifact_under_nonempty_payloads` at a
successful result with one non-empty `step` payload and one auxiliary
file. -/
theorem result_json_iff_artifact_witness :
    (∀ p ∈ ([("step", "abc")] : List (String × String)),
        p.2 ≠ "" ∧ p.1 ∈ (["step", "stl", "gltf"] : List String)) ∧
    (∀ f ∈ ([("doc.pdf", "zz")] : List (String × String)),
        f.1 ∉ (["result.json", "result.step", "result.stl", "result.gltf"] :
          List String)) ∧
    ("result.json" ∈ checkinScriptResultWrites []
        ⟨true, [("step", "abc")], [("doc.pdf", "zz")], []⟩ ↔
      "result.step" ∈ checkinScriptResultWrites []
        ⟨true, [("step", "abc")], [("doc.pdf", "zz")], []⟩ ∨
      "result.stl" ∈ checkinScriptResultWrites []
        ⟨true, [("step", "abc")], [("doc.pdf", "zz")], []⟩ ∨
      "result.gltf" ∈ checkinScriptResultWrites []
        ⟨true, [("step", "abc")], [("doc.pdf", "zz")], []⟩) :=
  ⟨by decide, by decide,
   result_json_iff_artifact_under_nonempty_payloads []
     ⟨true, [("step", "abc")], [("doc.pdf", "zz")], []⟩
     (by decide) (by decide)⟩

/-! ## C5 — catalog ordering, version lists and the latest pointer -/

/-- Totality of the semver order. -/
theorem verLe_total (a b : Nat × Nat × Nat) : verLe a b ∨ verLe b a := by
  unfold verLe; omega

/-- Transitivity of the semver order. -/
theorem verLe_trans {a b c : Nat × Nat × Nat}
    (h1 : verLe a b) (h2 : verLe b c) : verLe a c := by
  unfold verLe at *; omega

/-- Membership after a keyed insertion. -/
theorem mem_insertByKey (x y : CadScript × (Nat × Nat × Nat)) :
    ∀ l, y ∈ insertByKey x l ↔ y = x ∨ y ∈ l
  | [] => by simp [insertByKey]
  | z :: zs => by
      by_cases h : verLe z.2 x.2
      · simp only [insertByKey, if_pos h, List.mem_cons, mem_insertByKey x y zs]
        tauto
      · simp only [insertByKey, if_neg h, List.mem_cons]

/-- Length after a keyed insertion. -/
theorem length_insertByKey (x : CadScript × (Nat × Nat × Nat)) :
    ∀ l, (insertByKey x l).length = l.length + 1
  | [] => rfl
  | z :: zs => by
      by_cases h : verLe z.2 x.2
      · simp [insertByKey, h, length_insertByKey x zs]
      · simp [insertByKey, h]

/-- Keyed insertion into a key-sorted list stays key-sorted. -/
theorem pairwise_insertByKey (x : CadScript × (Nat × Nat × Nat)) :
    ∀ l, l.Pairwise (fun a b => verLe a.2 b.2) →
      (insertByKey x l).Pairwise (fun a b => verLe a.2 b.2)
  | [], _ => by simp [insertByKey]
  | z :: zs, hp => by
      rcases List.pairwise_cons.mp hp with ⟨hz, hzs⟩
      by_cases h : verLe z.2 x.2
      · simp only [insertByKey, if_pos h]
        refine List.pairwise_cons.mpr ⟨?_, pairwise_insertByKey x zs hzs⟩
        intro y hy
        rcases (mem_insertByKey x y zs).mp hy with rfl | hmem
        · exact h
        · exact hz y hmem
      · simp only [insertByKey, if_neg h]
        have hxz : verLe x.2 z.2 := (verLe_total x.2 z.2).resolve_right h
        refine List.pairwise_cons.mpr ⟨?_, hp⟩
        intro y hy
        rcases List.mem_cons.mp hy with rfl | hmem
        · exact hxz
        · exact verLe_trans hxz (hz y hmem)

/-- Membership through the insertion-sort fold. -/
theorem foldl_insert_mem (y : CadScript × (Nat × Nat × Nat)) :
    ∀ (l acc : List (CadScript × (Nat × Nat × Nat))),
      y ∈ l.foldl (fun acc p => insertByKey p acc) acc ↔ y ∈ acc ∨ y ∈ l
  | [], acc => by simp
  | p :: ps, acc => by
      simp only [List.foldl_cons,
        foldl_insert_mem y ps (insertByKey p acc), mem_insertByKey,
        List.mem_cons]
      tauto

/-- Length through the insertion-sort fold. -/
theorem foldl_insert_length :
    ∀ (l acc : List (CadScript × (Nat × Nat × Nat))),
      (l.foldl (fun acc p => insertByKey p acc) acc).length =
        acc.length + l.length
  | [], acc => by simp
  | p :: ps, acc => by
      simp only [List.foldl_cons, foldl_insert_length ps (insertByKey p acc),
        length_insertByKey, List.length_cons]
      omega

/-- Key-sortedness through the insertion-sort fold. -/
theorem foldl_insert_pairwise :
    ∀ (l acc : List (CadScript × (Nat × Nat × Nat))),
      acc.Pairwise (fun a b => verLe a.2 b.2) →
      (l.foldl (fun acc p => insertByKey p acc) acc).Pairwise
        (fun a b => verLe a.2 b.2)
  | [], _, h => h
  | p :: ps, acc, h =>
      foldl_insert_pairwise ps (insertByKey p acc) (pairwise_insertByKey p acc h)

/-- Success of the key extraction when every version parses. -/
theorem mapM_pairs_isSome :
    ∀ l : List CadScript, (∀ x ∈ l, (parseSemver x.version).isSome = true) →
      (mapMOption (fun s => (parseSemver s.version).map (fun k => (s, k)))
        l).isSome = true
  | [] => by intro _; simp [mapMOption]
  | x :: xs => by
      intro h
      obtain ⟨k, hk⟩ := Option.isSome_iff_exists.mp (h x (by simp))
      obtain ⟨ys, hys⟩ := Option.isSome_iff_exists.mp
        (mapM_pairs_isSome xs (fun z hz => h z (by simp [hz])))
      simp [mapMOption, hk, hys]

/-- Contents of a successful key extraction: same length, and every pair
is an element of the input carrying its own parsed version. -/
theorem mapM_pairs_spec :
    ∀ (l : List CadScript) (ps : List (CadScript × (Nat × Nat × Nat))),
      mapMOption (fun s => (parseSemver s.version).map (fun k => (s, k))) l
        = some ps →
      ps.length = l.length ∧
      ∀ p ∈ ps, p.1 ∈ l ∧ parseSemver p.1.version = some p.2
  | [], ps => by
      intro h
      simp only [mapMOption, Option.some.injEq] at h
      subst h
      simp
  | x :: xs, ps => by
      intro h
      simp only [mapMOption] at h
      rcases hx : parseSemver x.version with _ | k
      · rw [hx] at h; simp at h
      · rw [hx] at h
        rcases hxs : mapMOption
            (fun s => (parseSemver s.version).map (fun k => (s, k))) xs
          with _ | ys
        · rw [hxs] at h; simp at h
        · rw [hxs] at h
          simp only [Option.map_some', Option.some.injEq] at h
          subst h
          obtain ⟨hlen, hmem⟩ := mapM_pairs_spec xs ys hxs
          refine ⟨by simp [hlen], ?_⟩
          intro p hp
          rcases List.mem_cons.mp hp with rfl | hpm
          · exact ⟨by simp, hx⟩
          · obtain ⟨h1, h2⟩ := hmem p hpm
            exact ⟨by simp [h1], h2⟩

/-- The version sort succeeds when every version parses. -/
theorem sortScriptsByVersion_isSome (l : List CadScript)
    (h : ∀ x ∈ l, (parseSemver x.version).isSome = true) :
    (sortScriptsByVersion l).isSome = true := by
  unfold sortScriptsByVersion
  obtain ⟨ps, hps⟩ := Option.isSome_iff_exists.mp (mapM_pairs_isSome l h)
  simp [hps]

/-- A successful version sort preserves length. -/
theorem sortScriptsByVersion_length {l l' : List CadScript}
    (h : sortScriptsByVersion l = some l') : l'.length = l.length := by
  unfold sortScriptsByVersion at h
  rcases hm : mapMOption (fun s => (parseSemver s.version).map (fun k => (s, k))) l
    with _ | ps
  · rw [hm] at h; simp at h
  · rw [hm] at h
    simp only [Option.map_some', Option.some.injEq] at h
    subst h
    rw [List.length_map, foldl_insert_length]
    simp [(mapM_pairs_spec l ps hm).1]

/-- A successful version sort only permutes: its members come from the
input. -/
theorem sortScriptsByVersion_mem {l l' : List CadScript}
    (h : sortScriptsByVersion l = some l') : ∀ x ∈ l', x ∈ l := by
  unfold sortScriptsByVersion at h
  rcases hm : mapMOption (fun s => (parseSemver s.version).map (fun k => (s, k))) l
    with _ | ps
  · rw [hm] at h; simp at h
  · rw [hm] at h
    simp only [Option.map_some', Option.some.injEq] at h
    subst h
    intro x hx
    obtain ⟨p, hp, rfl⟩ := List.mem_map.mp hx
    rcases (foldl_insert_mem p ps []).mp hp with hnil | hmem
    · simp at hnil
    · exact ((mapM_pairs_spec l ps hm).2 p hmem).1

/-- A successful version sort is sorted by the parsed semver keys. -/
theorem sortScriptsByVersion_pairwise {l l' : List CadScript}
    (h : sortScriptsByVersion l = some l') :
    l'.Pairwise (fun a b => ∀ ka kb,
      parseSemver a.version = some ka → parseSemver b.version = some kb →
        verLe ka kb) := by
  unfold sortScriptsByVersion at h
  rcases hm : mapMOption (fun s => (parseSemver s.version).map (fun k => (s, k))) l
    with _ | ps
  · rw [hm] at h; simp at h
  · rw [hm] at h
    simp only [Option.map_some', Option.some.injEq] at h
    subst h
    rw [List.pairwise_map]
    have hsorted := foldl_insert_pairwise ps [] (by simp)
    refine hsorted.imp_of_mem ?_
    intro p q hp hq hpq ka kb hka hkb
    have hpin : p ∈ ps := by
      rcases (foldl_insert_mem p ps []).mp hp with hnil | hmem
      · simp at hnil
      · exact hmem
    have hqin : q ∈ ps := by
      rcases (foldl_insert_mem q ps []).mp hq with hnil | hmem
      · simp at hnil
      · exact hmem
    have hp2 := ((mapM_pairs_spec l ps hm).2 p hpin).2
    have hq2 := ((mapM_pairs_spec l ps hm).2 q hqin).2
    rw [hp2] at hka
    rw [hq2] at hkb
    cases hka
    cases hkb
    exact hpq

/-- Sorting a single parseable script is the identity. -/
theorem sortScriptsByVersion_singleton (s : CadScript)
    (h : (parseSemver s.version).isSome = true) :
    sortScriptsByVersion [s] = some [s] := by
  obtain ⟨k, hk⟩ := Option.isSome_iff_exists.mp h
  simp [sortScriptsByVersion, mapMOption, hk, insertByKey]

/-- String equality from character-data equality. -/
theorem string_data_inj {a b : String} (h : a.data = b.data) : a = b := by
  cases a; cases b; exact congrArg String.mk h

/-- Uniqueness of the split at the first marker character: two
decompositions `p ++ '/' :: q = r ++ '/' :: s` with slash-free `p` and
`r` coincide. -/
theorem marker_split_inj :
    ∀ (p r q s : List Char), '/' ∉ p → '/' ∉ r →
      p ++ '/' :: q = r ++ '/' :: s → p = r ∧ q = s
  | [], r, q, s, _, hr, h => by
      cases r with
      | nil => simpa using h
      | cons c r' =>
          simp only [List.nil_append, List.cons_append, List.cons.injEq] at h
          exact absurd (h.1 ▸ List.mem_cons_self c r') hr
  | c :: p', r, q, s, hp, hr, h => by
      cases r with
      | nil =>
          simp only [List.cons_append, List.nil_append, List.cons.injEq] at h
          exact absurd (h.1 ▸ List.mem_cons_self c p') hp
      | cons c' r' =>
          simp only [List.cons_append, List.cons.injEq] at h
          obtain ⟨rfl, h2⟩ := h
          have hp' : '/' ∉ p' := fun hh => hp (List.mem_cons_of_mem _ hh)
          have hr' : '/' ∉ r' := fun hh => hr (List.mem_cons_of_mem _ hh)
          obtain ⟨rfl, rfl⟩ := marker_split_inj p' r' q s hp' hr' h2
          exact ⟨rfl, rfl⟩

/-- Injectivity of `org ++ "/" ++ name` when the names are slash-free
(the orgs may contain anything). -/
theorem namespace_inj (o1 n1 o2 n2 : String)
    (h1 : '/' ∉ n1.data) (h2 : '/' ∉ n2.data)
    (h : o1 ++ "/" ++ n1 = o2 ++ "/" ++ n2) : o1 = o2 ∧ n1 = n2 := by
  have hd : o1.data ++ '/' :: n1.data = o2.data ++ '/' :: n2.data := by
    have := congrArg String.data h
    simpa [String.data_append] using this
  have hrev : n1.data.reverse ++ '/' :: o1.data.reverse =
      n2.data.reverse ++ '/' :: o2.data.reverse := by
    have := congrArg List.reverse hd
    simpa [List.reverse_append] using this
  have h1' : '/' ∉ n1.data.reverse := by simpa using h1
  have h2' : '/' ∉ n2.data.reverse := by simpa using h2
  obtain ⟨ha, hb⟩ := marker_split_inj _ _ _ _ h1' h2' hrev
  constructor
  · exact string_data_inj (List.reverse_injective hb)
  · exact string_data_inj (List.reverse_injective ha)

/-- Every namespace string contains a slash. -/
theorem slash_mem_namespaceOf (s : CadScript) : '/' ∈ (namespaceOf s).data := by
  simp [namespaceOf, String.data_append]

/-- Under org-determined names with slash-free names, filtering by name
equals filtering by namespace. -/
theorem filter_by_name_eq_filterNs (all : List CadScript) (s : CadScript)
    (hnames : ∀ a ∈ all, ∀ b ∈ all, a.name = b.name → a.org = b.org)
    (hslash : ∀ a ∈ all, '/' ∉ a.name.data) (hs : s ∈ all) :
    all.filter (fun t => t.name == s.name) = filterNs all (namespaceOf s) := by
  unfold filterNs
  apply List.filter_congr
  intro t ht
  have hiff : t.name = s.name ↔ namespaceOf t = namespaceOf s := by
    constructor
    · intro hn
      have ho : t.org = s.org := hnames t ht s hs hn
      simp [namespaceOf, hn, ho]
    · intro hn
      exact (namespace_inj t.org t.name s.org s.name
        (hslash t ht) (hslash s hs) hn).2
  by_cases h : t.name = s.name
  · simp [h, hiff.mp h]
  · have h2 : ¬ namespaceOf t = namespaceOf s := fun hh => h (hiff.mpr hh)
    simp [beq_eq_false_iff_ne.mpr h, beq_eq_false_iff_ne.mpr h2]

/-- A length-one list equals the singleton of any of its members. -/
theorem eq_singleton_of_length_one_mem {α : Type} {x : α} :
    ∀ {l : List α}, l.length = 1 → x ∈ l → l = [x]
  | [], h, _ => by simp at h
  | [a], _, hx => by
      rcases List.mem_singleton.mp hx with rfl
      rfl
  | a :: b :: t, h, _ => by simp at h

/-- Main invariant of the `order_scripts` loop: starting from a state
whose latest-index keys are all namespace strings (containing a slash),
a successful run leaves every processed script's namespace correctly
indexed (`GoodAt`), preserves already-correct entries, and keeps the
key shape. -/
theorem orderScriptsAux_correct (all : List CadScript)
    (hnames : ∀ a ∈ all, ∀ b ∈ all, a.name = b.name → a.org = b.org)
    (hslash : ∀ a ∈ all, '/' ∉ a.name.data)
    (hver : ∀ a ∈ all, (parseSemver a.version).isSome = true) :
    ∀ (todo : List CadScript) (st cat : Catalog),
      (∀ x ∈ todo, x ∈ all) →
      (∀ k v, st.latest_scripts.lookup k = some v → '/' ∈ k.data) →
      orderScriptsAux all todo st = some cat →
      (∀ k v, cat.latest_scripts.lookup k = some v → '/' ∈ k.data) ∧
      (∀ k, GoodAt all st k → GoodAt all cat k) ∧
      (∀ s ∈ todo, GoodAt all cat (namespaceOf s)) := by
  intro todo
  induction todo with
  | nil =>
      intro st cat _ hkeys h
      simp only [orderScriptsAux, Option.some.injEq] at h
      subst h
      exact ⟨hkeys, fun _ g => g, by simp⟩
  | cons s rest ih =>
      intro st cat hsub hkeys h
      have hs_all : s ∈ all := hsub s (by simp)
      have hrest_sub : ∀ x ∈ rest, x ∈ all := fun x hx => hsub x (by simp [hx])
      have hfilter : all.filter (fun t => t.name == s.name) =
          filterNs all (namespaceOf s) :=
        filter_by_name_eq_filterNs all s hnames hslash hs_all
      have hs_mem_filter : s ∈ all.filter (fun t => t.name == s.name) :=
        List.mem_filter.mpr ⟨hs_all, by simp⟩
      simp only [orderScriptsAux] at h
      by_cases hlen : (all.filter (fun t => t.name == s.name)).length = 1
      · rw [if_pos hlen] at h
        have hsingle : all.filter (fun t => t.name == s.name) = [s] :=
          eq_singleton_of_length_one_mem hlen hs_mem_filter
        have hsort : sortScriptsByVersion (filterNs all (namespaceOf s)) =
            some [s] := by
          rw [← hfilter, hsingle]
          exact sortScriptsByVersion_singleton s (hver s hs_all)
        have hgood' : GoodAt all
            ⟨upsert (namespaceOf s) s st.latest_scripts,
             upsert (namespaceOf s) [s.version] st.script_versions⟩
            (namespaceOf s) := by
          refine ⟨[s], hsort, ?_, ?_⟩
          · simp [lookup_upsert]
          · simp [lookup_upsert]
        have hkeys' : ∀ k v,
            (⟨upsert (namespaceOf s) s st.latest_scripts,
              upsert (namespaceOf s) [s.version] st.script_versions⟩ :
                Catalog).latest_scripts.lookup k = some v → '/' ∈ k.data := by
          intro k v hk
          simp only [lookup_upsert] at hk
          by_cases hkk : k = namespaceOf s
          · subst hkk; exact slash_mem_namespaceOf s
          · rw [if_neg hkk] at hk
            exact hkeys k v hk
        obtain ⟨hkeysC, hpres, hrest⟩ := ih _ cat hrest_sub hkeys' h
        refine ⟨hkeysC, ?_, ?_⟩
        · intro k hg
          apply hpres
          by_cases hkk : k = namespaceOf s
          · subst hkk; exact hgood'
          · obtain ⟨sorted, h1, h2, h3⟩ := hg
            refine ⟨sorted, h1, ?_, ?_⟩
            · simpa [lookup_upsert, if_neg hkk] using h2
            · simpa [lookup_upsert, if_neg hkk] using h3
        · intro t ht
          rcases List.mem_cons.mp ht with rfl | htr
          · exact hpres _ hgood'
          · exact hrest t htr
      · rw [if_neg hlen] at h
        split at h
        · rename_i v hguard
          exact absurd (hkeys _ _ hguard) (hslash s hs_all)
        rename_i hguard
        split at h
        · simp at h
        rename_i sorted hsorted
        split at h
        · simp at h
        rename_i lastS hlast
        · have hgood' : GoodAt all
              ⟨upsert (namespaceOf s) lastS st.latest_scripts,
               upsert (namespaceOf s) (sorted.map (·.version))
                 st.script_versions⟩ (namespaceOf s) := by
            refine ⟨sorted, by rw [← hfilter]; exact hsorted, ?_, ?_⟩
            · simp [lookup_upsert]
            · simp [lookup_upsert, hlast]
          have hkeys' : ∀ k v,
              (⟨upsert (namespaceOf s) lastS st.latest_scripts,
                upsert (namespaceOf s) (sorted.map (·.version))
                  st.script_versions⟩ :
                  Catalog).latest_scripts.lookup k = some v →
                '/' ∈ k.data := by
            intro k v hk
            simp only [lookup_upsert] at hk
            by_cases hkk : k = namespaceOf s
            · subst hkk; exact slash_mem_namespaceOf s
            · rw [if_neg hkk] at hk
              exact hkeys k v hk
          obtain ⟨hkeysC, hpres, hrest⟩ := ih _ cat hrest_sub hkeys' h
          refine ⟨hkeysC, ?_, ?_⟩
          · intro k hg
            apply hpres
            by_cases hkk : k = namespaceOf s
            · subst hkk; exact hgood'
            · obtain ⟨sorted', h1, h2, h3⟩ := hg
              refine ⟨sorted', h1, ?_, ?_⟩
              · simpa [lookup_upsert, if_neg hkk] using h2
              · simpa [lookup_upsert, if_neg hkk] using h3
          · intro t ht
            rcases List.mem_cons.mp ht with rfl | htr
            · exact hpres _ hgood'
            · exact hrest t htr

/-- C5 (counterexample): with two scripts named `box` under the distinct
orgs `org1` and `org2` (two distinct namespaces, a legal catalog), the
name-only filter of `order_scripts` puts `org2`'s version `2.0.0` into
`org1/box`'s version list, and `get(org1, box, None)` returns `org2`'s
record — a script whose org differs from the requested one. -/
theorem cross_org_same_name_pollutes_namespace :
    (order_scripts demoCross).map
        (fun c => c.script_versions.lookup "org1/box") =
      some (some ["1.0.0", "2.0.0"]) ∧
    ((order_scripts demoCross).bind
        (fun c => get_script_request c demoCross "org1" "box" none)).map
        (fun s => s.org) =
      some "org2" := by
  decide

/-- C5 (amended): provided script names are unique across orgs (any two
scripts sharing a name share an org — the "Unique names for scripts"
assumption stated at the top of `CadLibrary.py`), names are slash-free
and every version parses, then after `order_scripts` every namespace's
version list is exactly the semver-sorted versions of that namespace's
scripts, and `get(org, name, None)` returns the last — greatest — of
them, a record with the requested org and name. -/
theorem order_scripts_correct_under_unique_names
    (scripts : List CadScript) (cat : Catalog)
    (hnames : ∀ a ∈ scripts, ∀ b ∈ scripts, a.name = b.name → a.org = b.org)
    (hslash : ∀ a ∈ scripts, '/' ∉ a.name.data)
    (hver : ∀ a ∈ scripts, (parseSemver a.version).isSome = true)
    (h : order_scripts scripts = some cat) :
    ∀ s ∈ scripts, ∃ sorted : List CadScript,
      sortScriptsByVersion (filterNs scripts (namespaceOf s)) = some sorted ∧
      cat.script_versions.lookup (namespaceOf s) =
        some (sorted.map (·.version)) ∧
      cat.latest_scripts.lookup (namespaceOf s) = sorted.getLast? ∧
      get_script_request cat scripts s.org s.name none = sorted.getLast? ∧
      (∀ t, sorted.getLast? = some t → t.org = s.org ∧ t.name = s.name) ∧
      sorted.Pairwise (fun a b => ∀ ka kb,
        parseSemver a.version = some ka → parseSemver b.version = some kb →
          verLe ka kb) := by
  intro s hs
  obtain ⟨_, _, hgood⟩ := orderScriptsAux_correct scripts hnames hslash hver
    scripts ⟨[], []⟩ cat (fun _ hx => hx) (by simp [List.lookup]) h
  obtain ⟨sorted, h1, h2, h3⟩ := hgood s hs
  refine ⟨sorted, h1, h2, h3, h3, ?_, sortScriptsByVersion_pairwise h1⟩
  intro t ht
  have htmem : t ∈ sorted := List.mem_of_mem_getLast? ht
  have htf : t ∈ filterNs scripts (namespaceOf s) :=
    sortScriptsByVersion_mem h1 t htmem
  obtain ⟨htl, htb⟩ := List.mem_filter.mp htf
  have hteq : namespaceOf t = namespaceOf s := by simpa using htb
  have := namespace_inj t.org t.name s.org s.name
    (hslash t htl) (hslash s hs) hteq
  exact ⟨this.1, this.2⟩

/-- Witness for `order_scripts_correct_under_unique_names` on the
two-version namespace `acme/box`. -/
theorem order_scripts_correct_witness :
    (∀ a ∈ demoNs, ∀ b ∈ demoNs, a.name = b.name → a.org = b.org) ∧
    (∀ a ∈ demoNs, '/' ∉ a.name.data) ∧
    (∀ a ∈ demoNs, (parseSemver a.version).isSome = true) ∧
    (order_scripts demoNs).isSome = true ∧
    (∃ sorted : List CadScript,
      sortScriptsByVersion
          (filterNs demoNs (namespaceOf
            { org := "acme", name := "box", version := "2.0.0" })) =
        some sorted ∧
      ((order_scripts demoNs).getD ⟨[], []⟩).script_versions.lookup
          (namespaceOf { org := "acme", name := "box", version := "2.0.0" }) =
        some (sorted.map (·.version)) ∧
      ((order_scripts demoNs).getD ⟨[], []⟩).latest_scripts.lookup
          (namespaceOf { org := "acme", name := "box", version := "2.0.0" }) =
        sorted.getLast? ∧
      get_script_request ((order_scripts demoNs).getD ⟨[], []⟩) demoNs
          "acme" "box" none = sorted.getLast? ∧
      (∀ t, sorted.getLast? = some t → t.org = "acme" ∧ t.name = "box") ∧
      sorted.Pairwise (fun a b => ∀ ka kb,
        parseSemver a.version = some ka → parseSemver b.version = some kb →
          verLe ka kb)) := by
  refine ⟨by decide, by decide, by decide, by decide, ?_⟩
  have h : order_scripts demoNs = some ((order_scripts demoNs).getD ⟨[], []⟩) := by
    decide
  have := order_scripts_correct_under_unique_names demoNs
    ((order_scripts demoNs).getD ⟨[], []⟩) (by decide) (by decide) (by decide) h
    { org := "acme", name := "box", version := "2.0.0" } (by decide)
  exact this

/-! ## C10 — special entities resolve to the latest version -/

/-- C10: `handle` resolves `versions` / `params` / `presets` with
`get_script_request(org=req.script_org, name=req.script_name)` — no
version — so its answer is independent of the request's version field,
and the version-specific `/params` and `/presets` endpoints (which do
fill in their script's version) always answer with the fields of the
namespace's latest record. -/
theorem special_entities_resolve_to_latest_version :
    (∀ (cat : Catalog) (org name : String) (v v' : Option String)
        (entity : Option String),
      handleSpecialEntity cat org name v entity =
        handleSpecialEntity cat org name v' entity) ∧
    (∀ (cat : Catalog) (s : CadScript),
      getModelGetParams cat s =
        .paramsOut ((cat.latest_scripts.lookup (s.org ++ "/" ++ s.name)).map
          (·.params)) ∧
      getModelGetPresets cat s =
        .presetsOut ((cat.latest_scripts.lookup (s.org ++ "/" ++ s.name)).map
          (·.param_presets)) ∧
      handleSpecialEntity cat s.org s.name (some s.version) (some "versions") =
        .versionsOut ((cat.latest_scripts.lookup (s.org ++ "/" ++ s.name)).bind
          (fun latest => get_script_versions cat latest))) := by
  exact ⟨fun _ _ _ _ _ _ => rfl, fun _ _ => ⟨rfl, rfl, rfl⟩⟩

end Occi
